import Mathlib

/-!
# Verification of `devinvs/stocks` (src/main.rs)

A shallow embedding of the stocks command-line utility.  Rust `f64` values
are modelled as exact rationals (`Rat`); the rounding of binary floating
point is not modelled, only the real-number arithmetic the source performs.
Rust panics (`unwrap`, out-of-bounds slicing) are modelled as
`Except.error ()`; `Option` return values are modelled as `Option`.
`HashMap` is modelled as an association list whose `insert` replaces the
first entry with an equal key and otherwise appends, and whose lookup
returns the first entry with the key; all properties proved about it are
representation-independent (key sets, lookups) or stated up to
lookup-equivalence.
-/

set_option autoImplicit false

namespace Stocks

/-- `struct Stock { symbol, amount, cost_basis }` from src/main.rs. -/
structure Stock where
  symbol : String
  amount : Rat
  cost_basis : Rat
deriving DecidableEq, Repr

/-- `struct Account { name, stocks }` from src/main.rs. -/
structure Account where
  name : String
  stocks : List Stock
deriving DecidableEq, Repr

/-- A TOML value, as produced by the `toml` crate; only the constructors
the program inspects are distinguished (`float`, `integer`, `string`,
`table`), everything else is `other`. -/
inductive TomlVal where
  | float (q : Rat)
  | int (n : Int)
  | str (s : String)
  | table (t : List (String × TomlVal))
  | other
deriving Repr

/-- `toml::Value::as_table`: `Some` exactly on tables. -/
def as_table : TomlVal → Option (List (String × TomlVal))
  | .table t => some t
  | _ => none

/-- `toml::Value::as_float`: `Some` exactly on floats; in particular a TOML
integer is NOT converted (`as_float` on `Value::Integer` is `None`). -/
def as_float : TomlVal → Option Rat
  | .float q => some q
  | _ => none

/-- `toml::Value::get(key)` on a value: table lookup, `None` on non-tables. -/
def tomlGet (v : TomlVal) (k : String) : Option TomlVal :=
  match v with
  | .table t => (t.find? (fun p => p.1 = k)).map (fun p => p.2)
  | _ => none

/-- Rust `Option::unwrap`: a panic (modelled as `Except.error ()`) on `None`. -/
def optUnwrap {α : Type} : Option α → Except Unit α
  | some a => .ok a
  | none => .error ()

/-- Body of the inner loop of `parse_accounts`:
`info.get("num").unwrap().as_float().unwrap()` and likewise for `"price"`,
then the `Stock` is built from the table key and the two floats. -/
def parseStock (stock_name : String) (info : TomlVal) : Except Unit Stock := do
  let numVal ← optUnwrap (tomlGet info "num")
  let amount ← optUnwrap (as_float numVal)
  let priceVal ← optUnwrap (tomlGet info "price")
  let cost_basis ← optUnwrap (as_float priceVal)
  return { symbol := stock_name, amount := amount, cost_basis := cost_basis }

/-- The inner loop of `parse_accounts`: parse each `(stock_name, info)`
entry in order, pushing onto the `stocks` vector; the first panic aborts. -/
def parseStocksList : List (String × TomlVal) → Except Unit (List Stock)
  | [] => .ok []
  | p :: rest => do
      let s ← parseStock p.1 p.2
      let tail ← parseStocksList rest
      return s :: tail

/-- One iteration of the outer loop of `parse_accounts`:
`val.as_table().unwrap()`, then every `(stock_name, info)` entry is parsed. -/
def parseAccount (name : String) (val : TomlVal) : Except Unit Account := do
  let tbl ← optUnwrap (as_table val)
  let stocks ← parseStocksList tbl
  return { name := name, stocks := stocks }

/-- `parse_accounts` after the file has been read and parsed into a
top-level TOML table: every `(name, val)` entry becomes an `Account`,
in order.  Any `unwrap` failure anywhere is a panic aborting the parse. -/
def parse_accounts : List (String × TomlVal) → Except Unit (List Account)
  | [] => .ok []
  | p :: rest => do
      let a ← parseAccount p.1 p.2
      let tail ← parse_accounts rest
      return a :: tail

/-! ## The quote table (`HashMap<String, (f64, f64)>`) -/

/-- A quote: (last sale price, net change). -/
abbrev Quote := Rat × Rat

/-- `HashMap::insert` on the association-list model: replace the first
entry with this key, otherwise append. -/
def hmInsert (k : String) (v : Quote) : List (String × Quote) → List (String × Quote)
  | [] => [(k, v)]
  | p :: rest => if p.1 = k then (k, v) :: rest else p :: hmInsert k v rest

/-- `HashMap` lookup (`stock_info[name]` uses this, panicking on `none`). -/
def hmFind? : List (String × Quote) → String → Option Quote
  | [], _ => none
  | p :: rest, s => if p.1 = s then some p.2 else hmFind? rest s

/-- The keys of the quote table. -/
def keys (m : List (String × Quote)) : List String :=
  m.map (fun p => p.1)

/-- Inner loop of the table-building phase of `main`:
`stock_info.insert(stock.symbol.clone(), (0.0, 0.0))` for each stock. -/
def insertSymbols (stocks : List Stock) (m : List (String × Quote)) : List (String × Quote) :=
  stocks.foldl (fun m s => hmInsert s.symbol (0, 0) m) m

/-- The table-building phase of `main`: every stock of every account gets a
`(0.0, 0.0)` entry. -/
def initStockInfo (accounts : List Account) : List (String × Quote) :=
  accounts.foldl (fun m a => insertSymbols a.stocks m) []

/-! ## The fetch step (`update_stock_info` / `get_nasdaq_value`)

The network and JSON layers are summarised by an oracle
`lookup : String → String → Option Quote` giving, for a `(symbol, assetclass)`
pair, the result of `get_nasdaq_value symbol class` (`none` = network error,
malformed response or missing field). -/

/-- The body of each spawned task in `update_stock_info`: try the
`"stocks"` classification, fall back to `"etf"`, default to `(0.0, 0.0)`
(`unwrap_or_default` on `(f64, f64)`). -/
def fetchOne (lookup : String → String → Option Quote) (symbol : String) : Quote :=
  match lookup symbol "stocks" with
  | some x => x
  | none => (lookup symbol "etf").getD (0, 0)

/-- The requests the task for `symbol` dispatches, in order. -/
def fetchOneRequests (lookup : String → String → Option Quote) (symbol : String) :
    List (String × String) :=
  match lookup symbol "stocks" with
  | some _ => [(symbol, "stocks")]
  | none => [(symbol, "stocks"), (symbol, "etf")]

/-- `update_stock_info`: each `(symbol, _)` entry of the input map is
replaced by `(symbol, fetchOne symbol)`; the results are collected back
into a map. -/
def update_stock_info (info : List (String × Quote))
    (lookup : String → String → Option Quote) : List (String × Quote) :=
  info.map (fun p => (p.1, fetchOne lookup p.1))

/-- All requests dispatched by `update_stock_info`. -/
def updateRequests (info : List (String × Quote))
    (lookup : String → String → Option Quote) : List (String × String) :=
  info.foldr (fun p acc => fetchOneRequests lookup p.1 ++ acc) []

/-! ## Price-string parsing inside `get_nasdaq_value`

`let price = price_str[1..].parse::<f64>().ok()?;`
The slice `price_str[1..]` panics when byte index 1 is out of bounds
(empty string) or not a character boundary (multi-byte first character);
otherwise the remainder is parsed as a decimal number. -/

/-- The Rust slice `s[1..]`: panic unless the string is non-empty and its
first character occupies exactly one byte. -/
def rustSliceFrom1 (s : String) : Except Unit String :=
  match s.data with
  | [] => .error ()
  | c :: rest => if c.utf8Size = 1 then .ok (String.mk rest) else .error ()

/-- Digit list to number, most significant first. -/
def digitsToNat (l : List Char) : Nat :=
  l.foldl (fun a c => a * 10 + (c.toNat - 48)) 0

/-- Modelled from the spec and the standard library: the finite-decimal
fragment of Rust `str::parse::<f64>` — an optional sign, then digits with
an optional fractional part (`"12"`, `"12."`, `"12.5"`, `".5"`); anything
else (empty, stray characters, no digits) is `none`.  The exponent,
`inf` and `nan` forms are outside the model, and the exact rational value
stands in for the nearest `f64`. -/
def parseUnsigned (l : List Char) : Option Rat :=
  let intPart := l.takeWhile Char.isDigit
  let rest := l.dropWhile Char.isDigit
  match rest with
  | [] => if intPart = [] then none else some (digitsToNat intPart)
  | '.' :: fracRest =>
      let frac := fracRest.takeWhile Char.isDigit
      let rest2 := fracRest.dropWhile Char.isDigit
      if rest2 = [] ∧ (intPart ≠ [] ∨ frac ≠ []) then
        some ((digitsToNat intPart : Rat) + (digitsToNat frac : Rat) / (10 : Rat) ^ frac.length)
      else none
  | _ => none

/-- `str::parse::<f64>` (finite-decimal fragment): handle the sign, then
`parseUnsigned`. -/
def parseF64 (s : String) : Option Rat :=
  match s.data with
  | '+' :: rest => parseUnsigned rest
  | '-' :: rest => (parseUnsigned rest).map (fun q => -q)
  | l => parseUnsigned l

/-- The price-parsing step of `get_nasdaq_value`:
`price_str[1..].parse::<f64>().ok()` — outer `error` is a panic of the
slice, inner `none` is the "no result" the `?` operator turns into the
function returning `None`. -/
def parsePriceField (price_str : String) : Except Unit (Option Rat) := do
  let tail ← rustSliceFrom1 price_str
  return parseF64 tail

/-! ## The renderer (`print` / `clr`) -/

/-- `clr`: red for negative, green otherwise. -/
def clr (f : Rat) : String :=
  if f < 0 then "\x1b[38;5;1m" else "\x1b[38;5;2m"

/-- `let old = price + net; let net_perc = (old - price) * 100.0 / old;`
(the intraday percentage column of `print`). -/
def net_perc (price net : Rat) : Rat :=
  let old := price + net
  (old - price) * 100 / old

/-- `let total_net = (price - stock.cost_basis) * stock.amount;` -/
def total_net (price cost_basis amount : Rat) : Rat :=
  (price - cost_basis) * amount

/-- `let old = cost_basis * amount; let new = price * amount;
let total_perc = (new - old) * 100.0 / old;` -/
def total_perc (price cost_basis amount : Rat) : Rat :=
  let old := cost_basis * amount
  let new := price * amount
  (new - old) * 100 / old

/-- `let gain = net * stock.amount;` -/
def gain (net amount : Rat) : Rat :=
  net * amount

/-- Round to the nearest integer, ties to even (the rounding `{:.2}`
formatting applies to the decimal digit it cuts at). -/
def roundHalfEven (q : Rat) : Int :=
  let f := ⌊q⌋
  let r := q - f
  if r < 1 / 2 then f else if 1 / 2 < r then f + 1 else if f % 2 = 0 then f else f + 1

/-- Two-decimal fixed formatting of a number (`{:.2}`), on the exact
rational model of the value. -/
def fmtFixed2 (q : Rat) : String :=
  let n := (roundHalfEven (|q| * 100)).toNat
  let sign := if q < 0 then "-" else ""
  let fracDigits := if n % 100 < 10 then "0" ++ toString (n % 100) else toString (n % 100)
  sign ++ toString (n / 100) ++ "." ++ fracDigits

/-- Right-alignment to a minimum width (`{:>w.2}`). -/
def padLeft (w : Nat) (s : String) : String :=
  if s.length < w then String.mk (List.replicate (w - s.length) ' ') ++ s else s

/-- `{:>w.2}`: fixed two decimals, right-aligned to width `w`. -/
def fmt (w : Nat) (q : Rat) : String :=
  padLeft w (fmtFixed2 q)

/-- One data row of `print` (the third `println!`), for a stock whose
quote is `(price, net)`. -/
def printRow (stock : Stock) (price net : Rat) : String :=
  "\t" ++ stock.symbol ++ "\t$" ++ fmt 7 price
    ++ "  " ++ clr (gain net stock.amount) ++ "$" ++ fmt 6 (gain net stock.amount) ++ "\x1b[0m"
    ++ "  " ++ clr (net_perc price net) ++ fmt 6 (net_perc price net) ++ "%\x1b[0m"
    ++ "  " ++ clr (total_net price stock.cost_basis stock.amount)
    ++ "$" ++ fmt 9 (total_net price stock.cost_basis stock.amount) ++ "\x1b[0m"
    ++ "  " ++ clr (total_perc price stock.cost_basis stock.amount)
    ++ fmt 6 (total_perc price stock.cost_basis stock.amount) ++ "%\x1b[0m"
    ++ "\n"

/-- The column-header line of `print` (second `println!`). -/
def headerLine : String :=
  "\x1b[1m\tSymbol\t  Price      Net     Net %      Total   Total %\x1b[0m\n"

/-- The inner loop of `print`: one row per stock; `stock_info[name]`
panics (`Except.error ()`) when the symbol has no entry. -/
def printStocks (stock_info : List (String × Quote)) : List Stock → Except Unit String
  | [] => .ok ""
  | stock :: rest => do
      let pq ← optUnwrap (hmFind? stock_info stock.symbol)
      let tail ← printStocks stock_info rest
      return printRow stock pq.1 pq.2 ++ tail

/-- `print`: per account, the name line, the header line, then the rows,
in input order; the output is the full text written to the console. -/
def print (accounts : List Account) (stock_info : List (String × Quote)) :
    Except Unit String :=
  match accounts with
  | [] => .ok ""
  | account :: rest => do
      let rows ← printStocks stock_info account.stocks
      let tail ← print rest stock_info
      return account.name ++ ":\n" ++ headerLine ++ rows ++ tail

/-! ## The whole run (`main`) -/

/-- `main`, with the config file summarised as `none` (missing file or a
body that does not parse as a top-level TOML table) or `some t`, and the
network summarised by `lookup`.  The first component records every quote
request dispatched, in order; the second is the console output, or
`error` when the run panics. -/
def runMain (cfg : Option (List (String × TomlVal)))
    (lookup : String → String → Option Quote) :
    List (String × String) × Except Unit String :=
  match cfg with
  | none => ([], .error ())
  | some t =>
      match parse_accounts t with
      | .error e => ([], .error e)
      | .ok accounts =>
          let info := initStockInfo accounts
          (updateRequests info lookup, print accounts (update_stock_info info lookup))

/-- From the spec's words, for comparison with `net_perc`:
`intraday_percent = net_change / (price - net_change) * 100` (percent
change relative to the prior close, defined there as price minus today's
change). -/
def spec_intraday_percent (price net_change : Rat) : Rat :=
  net_change / (price - net_change) * 100

/-! ## Helper lemmas: key sets of the quote table -/

theorem keys_nil : keys [] = [] := rfl

theorem keys_cons (p : String × Quote) (m : List (String × Quote)) :
    keys (p :: m) = p.1 :: keys m := rfl

theorem mem_keys_hmInsert (s k : String) (v : Quote) (m : List (String × Quote)) :
    s ∈ keys (hmInsert k v m) ↔ s = k ∨ s ∈ keys m := by
  induction m with
  | nil => simp [hmInsert, keys]
  | cons p rest ih =>
      by_cases hpk : p.1 = k
      · simp only [hmInsert, hpk, if_true, keys_cons, List.mem_cons]
        rw [← hpk]
        tauto
      · simp only [hmInsert, hpk, if_false, keys_cons, List.mem_cons, ih]
        tauto

theorem nodup_keys_hmInsert (k : String) (v : Quote) (m : List (String × Quote))
    (h : (keys m).Nodup) : (keys (hmInsert k v m)).Nodup := by
  induction m with
  | nil => simp [hmInsert, keys]
  | cons p rest ih =>
      rw [keys_cons, List.nodup_cons] at h
      by_cases hpk : p.1 = k
      · simp only [hmInsert, hpk, if_true, keys_cons, List.nodup_cons]
        exact ⟨hpk ▸ h.1, h.2⟩
      · simp only [hmInsert, hpk, if_false, keys_cons, List.nodup_cons,
          mem_keys_hmInsert]
        exact ⟨by tauto, ih h.2⟩

theorem mem_keys_insertSymbols (s : String) (stocks : List Stock)
    (m : List (String × Quote)) :
    s ∈ keys (insertSymbols stocks m) ↔
      (∃ st ∈ stocks, st.symbol = s) ∨ s ∈ keys m := by
  induction stocks generalizing m with
  | nil => simp [insertSymbols]
  | cons st rest ih =>
      simp only [insertSymbols, List.foldl_cons] at ih ⊢
      rw [ih, mem_keys_hmInsert]
      simp only [List.mem_cons]
      constructor
      · rintro (⟨st', hst', h⟩ | hk | hm)
        · exact Or.inl ⟨st', Or.inr hst', h⟩
        · exact Or.inl ⟨st, Or.inl rfl, hk.symm⟩
        · exact Or.inr hm
      · rintro (⟨st', hst' | hst', h⟩ | hm)
        · exact Or.inr (Or.inl (by rw [hst'] at h; exact h.symm))
        · exact Or.inl ⟨st', hst', h⟩
        · exact Or.inr (Or.inr hm)

theorem nodup_keys_insertSymbols (stocks : List Stock) (m : List (String × Quote))
    (h : (keys m).Nodup) : (keys (insertSymbols stocks m)).Nodup := by
  induction stocks generalizing m with
  | nil => simpa [insertSymbols] using h
  | cons st rest ih =>
      simp only [insertSymbols, List.foldl_cons] at ih ⊢
      exact ih _ (nodup_keys_hmInsert _ _ _ h)

theorem mem_keys_initFold (s : String) (accounts : List Account)
    (m : List (String × Quote)) :
    s ∈ keys (accounts.foldl (fun m a => insertSymbols a.stocks m) m) ↔
      (∃ a ∈ accounts, ∃ st ∈ a.stocks, st.symbol = s) ∨ s ∈ keys m := by
  induction accounts generalizing m with
  | nil => simp
  | cons a rest ih =>
      simp only [List.foldl_cons]
      rw [ih, mem_keys_insertSymbols]
      simp only [List.mem_cons]
      constructor
      · rintro (⟨a', ha', h⟩ | ⟨st, hst, h⟩ | hm)
        · exact Or.inl ⟨a', Or.inr ha', h⟩
        · exact Or.inl ⟨a, Or.inl rfl, st, hst, h⟩
        · exact Or.inr hm
      · rintro (⟨a', ha' | ha', h⟩ | hm)
        · exact Or.inr (Or.inl (by rw [ha'] at h; exact h))
        · exact Or.inl ⟨a', ha', h⟩
        · exact Or.inr (Or.inr hm)

theorem nodup_keys_initFold (accounts : List Account) (m : List (String × Quote))
    (h : (keys m).Nodup) :
    (keys (accounts.foldl (fun m a => insertSymbols a.stocks m) m)).Nodup := by
  induction accounts generalizing m with
  | nil => simpa using h
  | cons a rest ih =>
      simp only [List.foldl_cons]
      exact ih _ (nodup_keys_insertSymbols _ _ h)

theorem mem_keys_initStockInfo (s : String) (accounts : List Account) :
    s ∈ keys (initStockInfo accounts) ↔
      ∃ a ∈ accounts, ∃ st ∈ a.stocks, st.symbol = s := by
  rw [initStockInfo, mem_keys_initFold]
  simp [keys]

theorem nodup_keys_initStockInfo (accounts : List Account) :
    (keys (initStockInfo accounts)).Nodup :=
  nodup_keys_initFold accounts [] (by simp [keys])

theorem keys_update_stock_info (m : List (String × Quote))
    (lookup : String → String → Option Quote) :
    keys (update_stock_info m lookup) = keys m := by
  simp [keys, update_stock_info, List.map_map, Function.comp]

theorem hmFind?_isSome_iff (m : List (String × Quote)) (s : String) :
    (hmFind? m s).isSome = true ↔ s ∈ keys m := by
  induction m with
  | nil => simp [hmFind?, keys]
  | cons p rest ih =>
      by_cases hps : p.1 = s
      · simp [hmFind?, hps, keys_cons]
      · simp only [hmFind?, hps, if_false, keys_cons, List.mem_cons, ih]
        tauto

/-! ## Helper lemmas: the renderer never panics, and is extensional in the
lookup function -/

theorem exceptBind_ok {ε α β : Type} (a : α) (f : α → Except ε β) :
    (Except.ok a >>= f) = f a := rfl

theorem exceptBind_error {ε α β : Type} (e : ε) (f : α → Except ε β) :
    ((Except.error e : Except ε α) >>= f) = .error e := rfl

theorem printStocks_ok (stock_info : List (String × Quote)) (stocks : List Stock)
    (h : ∀ st ∈ stocks, (hmFind? stock_info st.symbol).isSome = true) :
    ∃ out, printStocks stock_info stocks = .ok out := by
  induction stocks with
  | nil => exact ⟨"", rfl⟩
  | cons st rest ih =>
      obtain ⟨pq, hpq⟩ := Option.isSome_iff_exists.mp (h st (by simp))
      obtain ⟨tail, htail⟩ := ih (fun st' hst' => h st' (by simp [hst']))
      refine ⟨printRow st pq.1 pq.2 ++ tail, ?_⟩
      simp [printStocks, hpq, optUnwrap, htail, exceptBind_ok]

theorem print_ok (accounts : List Account) (stock_info : List (String × Quote))
    (h : ∀ a ∈ accounts, ∀ st ∈ a.stocks, (hmFind? stock_info st.symbol).isSome = true) :
    ∃ out, print accounts stock_info = .ok out := by
  induction accounts with
  | nil => exact ⟨"", rfl⟩
  | cons a rest ih =>
      obtain ⟨rows, hrows⟩ := printStocks_ok stock_info a.stocks (h a (by simp))
      obtain ⟨tail, htail⟩ := ih (fun a' ha' => h a' (by simp [ha']))
      refine ⟨a.name ++ ":\n" ++ headerLine ++ rows ++ tail, ?_⟩
      simp [print, hrows, htail, exceptBind_ok]

theorem printStocks_congr (t1 t2 : List (String × Quote)) (stocks : List Stock)
    (h : ∀ s, hmFind? t1 s = hmFind? t2 s) :
    printStocks t1 stocks = printStocks t2 stocks := by
  induction stocks with
  | nil => rfl
  | cons st rest ih => simp [printStocks, h st.symbol, ih]

theorem print_congr (accounts : List Account) (t1 t2 : List (String × Quote))
    (h : ∀ s, hmFind? t1 s = hmFind? t2 s) :
    print accounts t1 = print accounts t2 := by
  induction accounts with
  | nil => rfl
  | cons a rest ih => simp [print, printStocks_congr t1 t2 a.stocks h, ih]

/-! ## Helper lemmas: a panic anywhere inside `parse_accounts` aborts the
whole parse -/

theorem parseStocksList_error (tbl : List (String × TomlVal)) (sym : String)
    (info : TomlVal) (hmem : (sym, info) ∈ tbl)
    (herr : parseStock sym info = .error ()) :
    parseStocksList tbl = .error () := by
  induction tbl with
  | nil => simp at hmem
  | cons p rest ih =>
      rcases List.mem_cons.mp hmem with rfl | hmem'
      · simp [parseStocksList, herr, exceptBind_error]
      · cases hp : parseStock p.1 p.2 with
        | error e => simp [parseStocksList, hp, exceptBind_error]
        | ok s => simp [parseStocksList, hp, exceptBind_ok, ih hmem', exceptBind_error]

theorem parse_accounts_error_of_account_error (t : List (String × TomlVal))
    (name : String) (val : TomlVal) (hmem : (name, val) ∈ t)
    (herr : parseAccount name val = .error ()) :
    parse_accounts t = .error () := by
  induction t with
  | nil => simp at hmem
  | cons p rest ih =>
      rcases List.mem_cons.mp hmem with rfl | hmem'
      · simp [parse_accounts, herr, exceptBind_error]
      · cases hp : parseAccount p.1 p.2 with
        | error e => simp [parse_accounts, hp, exceptBind_error]
        | ok a => simp [parse_accounts, hp, exceptBind_ok, ih hmem', exceptBind_error]

theorem parseStock_error_of_int (stock_name : String) (info : TomlVal) (n : Int)
    (h : tomlGet info "num" = some (.int n) ∨ tomlGet info "price" = some (.int n)) :
    parseStock stock_name info = .error () := by
  rcases h with h | h
  · simp [parseStock, h, optUnwrap, as_float, exceptBind_ok, exceptBind_error]
  · cases hnum : tomlGet info "num" with
    | none => simp [parseStock, hnum, optUnwrap, exceptBind_error]
    | some v =>
        cases hv : as_float v with
        | none => simp [parseStock, hnum, hv, optUnwrap, exceptBind_ok, exceptBind_error]
        | some q =>
            have hval : v = .float q := by cases v <;> simp_all [as_float]
            subst hval
            simp [parseStock, hnum, h, optUnwrap, as_float,
              exceptBind_ok, exceptBind_error]

theorem parse_accounts_error_of_stock_error (t : List (String × TomlVal))
    (name : String) (tbl : List (String × TomlVal)) (sym : String) (info : TomlVal)
    (h1 : (name, TomlVal.table tbl) ∈ t) (h2 : (sym, info) ∈ tbl)
    (h3 : parseStock sym info = .error ()) :
    parse_accounts t = .error () := by
  apply parse_accounts_error_of_account_error _ _ _ h1
  have hinner : parseStocksList tbl = .error () := parseStocksList_error tbl sym info h2 h3
  simp [parseAccount, as_table, optUnwrap, hinner, exceptBind_ok, exceptBind_error]

/-! ## The claims -/

/-- Claim C1 (code bug): the spec defines the intraday percentage as
`net_change / (price - net_change) * 100`, the percent change relative to
the prior close `price - net_change`.  The code computes
`old = price + net; (old - price) * 100 / old`, i.e.
`net * 100 / (price + net)`: its variable `old` (the prior close) is
`price + net`, contradicting the glossary's definition of net change
(movement since prior close, so prior close is `price - net`).  At
price 110, net change 10 the code renders 25/3 ≈ 8.33 %, while the
specified formula gives 10 %. -/
theorem netPerc_code_disagrees_with_spec_at_110_10 :
    net_perc 110 10 = 25 / 3 ∧ spec_intraday_percent 110 10 = 10 ∧
      net_perc 110 10 ≠ spec_intraday_percent 110 10 := by
  refine ⟨by norm_num [net_perc], by norm_num [spec_intraday_percent], ?_⟩
  norm_num [net_perc, spec_intraday_percent]

/-- Claim C2, counterexample: the claim says every price string lacking a
leading `$` yields "no result"; but the code never checks the first
character — it strips it unconditionally — so `"123.45"` yields the
number 23.45, not an empty result. -/
theorem parsePrice_no_dollar_yields_number :
    parsePriceField "123.45" = .ok (some (469 / 20)) ∧
      parsePriceField "123.45" ≠ .ok none := by
  have h : parsePriceField "123.45" =
      .ok (some (((23 : Nat) : Rat) + ((45 : Nat) : Rat) / (10 : Rat) ^ 2)) := rfl
  constructor
  · rw [h]; norm_num
  · rw [h]; simp

/-- Claim C2 as amended: `"$123.45"` parses to 123.45 because the first
character is stripped and the remainder parsed.  For every price string
beginning with a single-byte character, the result is exactly the
numeric parse of the remainder: every such string whose remainder is
non-numeric yields "no result", but the leading character is never
checked against `$` — every such string lacking a leading `$` likewise
has its first character stripped and the remainder parsed (e.g.
`"123.45"` yields the number 23.45). -/
theorem parsePrice_strips_first_char_unconditionally :
    parsePriceField "$123.45" = .ok (some (12345 / 100)) ∧
      (∀ (c : Char) (l : List Char), c.utf8Size = 1 →
        parsePriceField (String.mk (c :: l)) = .ok (parseF64 (String.mk l))) ∧
      (∀ (c : Char) (l : List Char), c.utf8Size = 1 → parseF64 (String.mk l) = none →
        parsePriceField (String.mk (c :: l)) = .ok none) ∧
      parsePriceField "123.45" = .ok (some (469 / 20)) := by
  have hstrip : ∀ (c : Char) (l : List Char), c.utf8Size = 1 →
      parsePriceField (String.mk (c :: l)) = .ok (parseF64 (String.mk l)) := by
    intro c l h
    simp [parsePriceField, rustSliceFrom1, h, exceptBind_ok]
  have h1 : parsePriceField "$123.45" =
      .ok (some (((123 : Nat) : Rat) + ((45 : Nat) : Rat) / (10 : Rat) ^ 2)) := rfl
  have h4 : parsePriceField "123.45" =
      .ok (some (((23 : Nat) : Rat) + ((45 : Nat) : Rat) / (10 : Rat) ^ 2)) := rfl
  refine ⟨?_, hstrip, ?_, ?_⟩
  · rw [h1]; norm_num
  · intro c l h hnone
    rw [hstrip c l h, hnone]
  · rw [h4]; norm_num

theorem parsePrice_strips_first_char_unconditionally_witness :
    ('1' : Char).utf8Size = 1 ∧
      parsePriceField (String.mk ('1' :: "23.45".data))
        = .ok (parseF64 (String.mk "23.45".data)) ∧
      parseF64 (String.mk "ab".data) = none ∧
      parsePriceField (String.mk ('$' :: "ab".data)) = .ok none :=
  ⟨by decide,
    parsePrice_strips_first_char_unconditionally.2.1 '1' "23.45".data (by decide),
    rfl,
    parsePrice_strips_first_char_unconditionally.2.2.1 '$' "ab".data (by decide) rfl⟩

/-- Claim C3: for every non-empty config, the fetch step returns a map
whose keys are exactly the distinct symbols of the config's holdings —
no duplicates, no omissions, no extras. -/
theorem fetch_one_quote_per_distinct_symbol (accounts : List Account)
    (lookup : String → String → Option Quote) (_hne : accounts ≠ []) :
    (keys (update_stock_info (initStockInfo accounts) lookup)).Nodup ∧
      ∀ s, s ∈ keys (update_stock_info (initStockInfo accounts) lookup) ↔
        ∃ a ∈ accounts, ∃ st ∈ a.stocks, st.symbol = s := by
  constructor
  · rw [keys_update_stock_info]
    exact nodup_keys_initStockInfo accounts
  · intro s
    rw [keys_update_stock_info]
    exact mem_keys_initStockInfo s accounts

theorem fetch_one_quote_per_distinct_symbol_witness :
    ([⟨"acct", [⟨"AAPL", 10, 5⟩]⟩] : List Account) ≠ [] ∧
      ((keys (update_stock_info (initStockInfo [⟨"acct", [⟨"AAPL", 10, 5⟩]⟩])
          (fun _ _ => none))).Nodup ∧
        ∀ s, s ∈ keys (update_stock_info (initStockInfo [⟨"acct", [⟨"AAPL", 10, 5⟩]⟩])
            (fun _ _ => none)) ↔
          ∃ a ∈ ([⟨"acct", [⟨"AAPL", 10, 5⟩]⟩] : List Account),
            ∃ st ∈ a.stocks, st.symbol = s) :=
  ⟨List.cons_ne_nil _ _,
    fetch_one_quote_per_distinct_symbol _ _ (List.cons_ne_nil _ _)⟩

/-- Claim C4: when the `"stocks"`-classified lookup fails and the
`"etf"`-classified lookup succeeds, the fetched quote is the etf result. -/
theorem fetch_etf_fallback (lookup : String → String → Option Quote)
    (s : String) (q : Quote) (hstocks : lookup s "stocks" = none)
    (hetf : lookup s "etf" = some q) : fetchOne lookup s = q := by
  simp [fetchOne, hstocks, hetf]

theorem fetch_etf_fallback_witness :
    (fun (_ : String) (c : String) => if c = "etf" then some ((5 : Rat), (1 : Rat)) else none)
        "AAPL" "stocks" = none ∧
      (fun (_ : String) (c : String) => if c = "etf" then some ((5 : Rat), (1 : Rat)) else none)
        "AAPL" "etf" = some (5, 1) ∧
      fetchOne (fun _ c => if c = "etf" then some ((5 : Rat), (1 : Rat)) else none) "AAPL"
        = (5, 1) :=
  ⟨by simp, by simp, fetch_etf_fallback _ "AAPL" (5, 1) (by simp) (by simp)⟩

/-- Claim C5: when both the `"stocks"` and `"etf"` lookups fail, the quote
recorded in the fetch result is exactly `(0, 0)` (`unwrap_or_default`),
and the result map still carries an entry for the symbol — the failure is
absorbed, never propagated. -/
theorem fetch_total_failure_defaults_to_zero (lookup : String → String → Option Quote)
    (s : String) (m : List (String × Quote)) (h1 : lookup s "stocks" = none)
    (h2 : lookup s "etf" = none) (h3 : s ∈ keys m) :
    fetchOne lookup s = (0, 0) ∧
      (s, ((0 : Rat), (0 : Rat))) ∈ update_stock_info m lookup := by
  have hf : fetchOne lookup s = (0, 0) := by simp [fetchOne, h1, h2]
  refine ⟨hf, ?_⟩
  obtain ⟨p, hp, hp1⟩ := List.mem_map.mp h3
  exact List.mem_map.mpr ⟨p, hp, by rw [hp1, hf]⟩

theorem fetch_total_failure_defaults_to_zero_witness :
    (fun (_ : String) (_ : String) => (none : Option Quote)) "AAPL" "stocks" = none ∧
      "AAPL" ∈ keys [("AAPL", ((0 : Rat), (0 : Rat)))] ∧
      fetchOne (fun _ _ => none) "AAPL" = (0, 0) ∧
      ("AAPL", ((0 : Rat), (0 : Rat))) ∈
        update_stock_info [("AAPL", ((0 : Rat), (0 : Rat)))] (fun _ _ => none) := by
  have h := fetch_total_failure_defaults_to_zero (fun _ _ => none) "AAPL"
    [("AAPL", ((0 : Rat), (0 : Rat)))] rfl rfl (by simp [keys])
  exact ⟨rfl, by simp [keys], h.1, h.2⟩

/-- Claim C6: for every config and every combination of lookup successes
and failures, when rendering begins every symbol referenced by any
holding has an entry in the quote table, so the renderer's indexing
`stock_info[name]` never panics and `print` returns output. -/
theorem quote_table_total_before_render (accounts : List Account)
    (lookup : String → String → Option Quote) :
    (accounts.all fun a => a.stocks.all fun st =>
        (hmFind? (update_stock_info (initStockInfo accounts) lookup) st.symbol).isSome) = true ∧
      ∃ out, print accounts (update_stock_info (initStockInfo accounts) lookup)
        = .ok out := by
  have hmem : ∀ a ∈ accounts, ∀ st ∈ a.stocks,
      (hmFind? (update_stock_info (initStockInfo accounts) lookup) st.symbol).isSome
        = true := by
    intro a ha st hst
    rw [hmFind?_isSome_iff, keys_update_stock_info, mem_keys_initStockInfo]
    exact ⟨a, ha, st, hst, rfl⟩
  constructor
  · simp only [List.all_eq_true]
    exact hmem
  · exact print_ok accounts _ hmem

/-- Claim C7: when the config is missing or fails to parse, the run
aborts with a failure having dispatched no quote request at all. -/
theorem config_parse_failure_no_requests (cfg : Option (List (String × TomlVal)))
    (lookup : String → String → Option Quote)
    (h : ∀ t, cfg = some t → parse_accounts t = .error ()) :
    runMain cfg lookup = ([], .error ()) := by
  cases cfg with
  | none => rfl
  | some t =>
      have ht := h t rfl
      simp [runMain, ht]

theorem config_parse_failure_no_requests_witness :
    parse_accounts [("brokerage", TomlVal.table
        [("AAPL", TomlVal.table [("num", TomlVal.int 10), ("price", TomlVal.float 5)])])]
      = .error () ∧
      runMain (some [("brokerage", TomlVal.table
          [("AAPL", TomlVal.table [("num", TomlVal.int 10), ("price", TomlVal.float 5)])])])
        (fun _ _ => some (1, 1))
        = ([], .error ()) :=
  ⟨rfl, config_parse_failure_no_requests _ _ (fun t ht => by cases ht; rfl)⟩

/-- Claim C8: rendering is a pure function of (accounts, quote table):
any two quote tables with the same lookups — in particular the same
table twice — render to identical text. -/
theorem print_deterministic (accounts : List Account)
    (t1 t2 : List (String × Quote)) (h : ∀ s, hmFind? t1 s = hmFind? t2 s) :
    print accounts t1 = print accounts t2 :=
  print_congr accounts t1 t2 h

theorem print_deterministic_witness :
    (∀ s, hmFind? [("X", ((2 : Rat), (1 : Rat)))] s
        = hmFind? [("X", ((2 : Rat), (1 : Rat))), ("X", ((9 : Rat), (9 : Rat)))] s) ∧
      print [⟨"a", [⟨"X", 1, 1⟩]⟩] [("X", ((2 : Rat), (1 : Rat)))]
        = print [⟨"a", [⟨"X", 1, 1⟩]⟩]
            [("X", ((2 : Rat), (1 : Rat))), ("X", ((9 : Rat), (9 : Rat)))] := by
  have h : ∀ s, hmFind? [("X", ((2 : Rat), (1 : Rat)))] s
      = hmFind? [("X", ((2 : Rat), (1 : Rat))), ("X", ((9 : Rat), (9 : Rat)))] s := by
    intro s
    by_cases hx : ("X" : String) = s <;> simp [hmFind?, hx]
  exact ⟨h, print_deterministic _ _ _ h⟩

/-- Claim C9: the renderer's gain columns are
`intraday_gain = net * quantity`, `total_gain = (price - cost_basis) * quantity`
and `total_percent = (price*quantity - cost_basis*quantity) / (cost_basis*quantity) * 100`
(the code's `(new - old) * 100 / old` agrees with the spec's formula in
exact arithmetic), and the spec's worked example — quantity 10,
cost basis 5.0, price 6.0, net change 1.0 — yields total gain 10.0,
total percent 20.0 and intraday gain 10.0. -/
theorem renderer_gain_formulas :
    (∀ price net cost_basis amount : Rat,
        gain net amount = net * amount ∧
        total_net price cost_basis amount = (price - cost_basis) * amount ∧
        total_perc price cost_basis amount =
          (price * amount - cost_basis * amount) / (cost_basis * amount) * 100) ∧
      total_net 6 5 10 = 10 ∧ total_perc 6 5 10 = 20 ∧ gain 1 10 = 10 := by
  refine ⟨fun price net cost_basis amount => ⟨rfl, rfl, ?_⟩,
    by norm_num [total_net], by norm_num [total_perc], by norm_num [gain]⟩
  show (price * amount - cost_basis * amount) * 100 / (cost_basis * amount) = _
  rw [div_mul_eq_mul_div]

/-- Claim C10: a holding whose `num` or `price` field is present but is a
TOML integer (not a float) makes `as_float` return `None`, so the
`unwrap` panics and config parsing aborts — the integer is never
converted to a float. -/
theorem integer_num_or_price_aborts_parse (t : List (String × TomlVal))
    (name : String) (tbl : List (String × TomlVal)) (sym : String)
    (info : TomlVal) (n : Int) (h1 : (name, TomlVal.table tbl) ∈ t)
    (h2 : (sym, info) ∈ tbl)
    (h3 : tomlGet info "num" = some (.int n) ∨ tomlGet info "price" = some (.int n)) :
    parse_accounts t = .error () :=
  parse_accounts_error_of_stock_error t name tbl sym info h1 h2
    (parseStock_error_of_int sym info n h3)

theorem integer_num_or_price_aborts_parse_witness :
    ("ira", TomlVal.table [("VTI", TomlVal.table
        [("num", TomlVal.float 2), ("price", TomlVal.int 200)])])
      ∈ [("ira", TomlVal.table [("VTI", TomlVal.table
        [("num", TomlVal.float 2), ("price", TomlVal.int 200)])])] ∧
      parse_accounts [("ira", TomlVal.table [("VTI", TomlVal.table
        [("num", TomlVal.float 2), ("price", TomlVal.int 200)])])] = .error () :=
  ⟨by simp, integer_num_or_price_aborts_parse _ "ira"
    [("VTI", TomlVal.table [("num", TomlVal.float 2), ("price", TomlVal.int 200)])]
    "VTI" (TomlVal.table [("num", TomlVal.float 2), ("price", TomlVal.int 200)]) 200
    (by simp) (by simp) (Or.inr rfl)⟩

end Stocks
